import Mathlib

/-
  Shallow embedding of the Atomic Chess engine (ChessVar.py).

  The board is an 8x8 grid of optional pieces.  Python list indexing is
  modelled faithfully: an index i is valid when -8 <= i < 8 (negative
  indices wrap), and any other index raises IndexError, modelled by
  returning `none` at the `pyCell` level and by `make_move` returning
  `none` (an uncaught exception) instead of `some (result, state)`.
-/

inductive Color
  | white
  | black
deriving DecidableEq, Repr

inductive PieceKind
  | Pawn
  | Rook
  | Knight
  | Bishop
  | Queen
  | King
deriving DecidableEq, Repr

structure Piece where
  kind : PieceKind
  color : Color
deriving DecidableEq, Repr

abbrev Board := Fin 8 → Fin 8 → Option Piece

/-- Python list-index normalisation for a list of length 8: indices in
[0,8) are themselves, indices in [-8,0) wrap around, anything else
raises IndexError (modelled as `none`). -/
def normIdx (i : Int) : Option (Fin 8) :=
  if h : 0 ≤ i ∧ i < 8 then some ⟨i.toNat, by omega⟩
  else if h2 : -8 ≤ i ∧ i < 0 then some ⟨(i + 8).toNat, by omega⟩
  else none

/-- `board[r][c]` as an expression that can raise: `none` is IndexError,
`some v` is the stored optional piece. -/
def pyCell (b : Board) (r c : Int) : Option (Option Piece) :=
  (normIdx r).bind fun r' => (normIdx c).map fun c' => b r' c'

/-- Board lookup used inside the piece predicates.  Within every call
reachable from `make_move` the indices are Python-indexable, so the
IndexError case (collapsed here to an empty square) is never hit. -/
def cell (b : Board) (r c : Int) : Option Piece :=
  (normIdx r).bind fun r' => (normIdx c).bind fun c' => b r' c'

/-- `board[r][c] = p`.  Callers only reach this with indexable
coordinates (the corresponding lookup succeeded earlier). -/
def setCell (b : Board) (r c : Int) (p : Option Piece) : Board :=
  match normIdx r, normIdx c with
  | some r', some c' => fun x y => if x = r' ∧ y = c' then p else b x y
  | _, _ => b

/-- Pawn.is_move_valid: forward moves (single step, or double step from
the starting rank with the intervening square empty) onto an empty
square in the same column; diagonal single-step forward onto an
occupied square. -/
def pawnValid (color : Color) (rf cf rt ct : Int) (sq : Option Piece) (b : Board) : Bool :=
  (sq.isNone && decide (cf = ct) &&
    (match color with
     | Color.white =>
         (decide (rf = 6) && decide (rf - rt = 2) && (cell b (rf - 1) cf).isNone)
         || decide (rf - rt = 1)
     | Color.black =>
         (decide (rf = 1) && decide (rt - rf = 2) && (cell b (rf + 1) cf).isNone)
         || decide (rt - rf = 1)))
  ||
  (sq.isSome && decide ((cf - ct).natAbs = 1) &&
    (match color with
     | Color.white => decide (rf - rt = 1)
     | Color.black => decide (rt - rf = 1)))

/-- range(a, b, 1) over the integers. -/
def rangeAsc (a b : Int) : List Int :=
  (List.range (b - a).toNat).map fun k => a + (k : Int)

/-- range(a, b, -1) over the integers. -/
def rangeDesc (a b : Int) : List Int :=
  (List.range (a - b).toNat).map fun k => a - (k : Int)

/-- Rook.is_move_valid: purely vertical or purely horizontal, with every
square strictly between origin and destination empty. -/
def rookValid (rf cf rt ct : Int) (b : Board) : Bool :=
  if cf = ct then
    (if rf < rt then rangeAsc (rf + 1) rt else rangeDesc (rf - 1) rt).all
      fun r => (cell b r cf).isNone
  else if rf = rt then
    (if cf < ct then rangeAsc (cf + 1) ct else rangeDesc (cf - 1) ct).all
      fun c => (cell b rf c).isNone
  else false

/-- Knight.is_move_valid: L-shaped offset, no path check. -/
def knightValid (rf cf rt ct : Int) : Bool :=
  (decide ((cf - ct).natAbs = 2) && decide ((rf - rt).natAbs = 1))
  || (decide ((cf - ct).natAbs = 1) && decide ((rf - rt).natAbs = 2))

/-- The while-loop of Bishop.is_move_valid: walk from the square after
the origin toward the destination, failing on the first occupied square,
stopping when the row AND the column have both reached the target.  The
fuel only runs out if the walk never reaches the target, which cannot
happen for the diagonal moves on which `make_move` invokes it (at most
7 steps); on such divergent inputs the Python loop would walk off the
board and raise. -/
def bishopWalk (b : Board) (rt ct rstep cstep : Int) : Int → Int → Nat → Bool
  | _, _, 0 => false
  | nr, nc, Nat.succ fuel =>
    if nr ≠ rt ∧ nc ≠ ct then
      if (cell b nr nc).isSome then false
      else bishopWalk b rt ct rstep cstep (nr + rstep) (nc + cstep) fuel
    else true

/-- Bishop.is_move_valid: equal absolute row/column deltas, with the
strictly-between diagonal squares checked by `bishopWalk`. -/
def bishopValid (rf cf rt ct : Int) (b : Board) : Bool :=
  if (cf - ct).natAbs ≠ (rf - rt).natAbs then false
  else
    bishopWalk b rt ct (if rf < rt then 1 else -1) (if cf < ct then 1 else -1)
      (rf + (if rf < rt then 1 else -1)) (cf + (if cf < ct then 1 else -1)) 16

/-- King.is_move_valid: destination empty (kings never capture) and at
most one step in each direction.  The Python code tests
`0 <= abs(delta) <= 1`; the lower bound is vacuous. -/
def kingValid (rf cf rt ct : Int) (sq : Option Piece) : Bool :=
  sq.isNone && decide ((rf - rt).natAbs ≤ 1) && decide ((cf - ct).natAbs ≤ 1)

/-- Piece.is_move_valid dispatch.  The Queen delegates to the Rook and
Bishop checks. -/
def isMoveValid (p : Piece) (rf cf rt ct : Int) (sq : Option Piece) (b : Board) : Bool :=
  match p.kind with
  | PieceKind.Pawn => pawnValid p.color rf cf rt ct sq b
  | PieceKind.Rook => rookValid rf cf rt ct b
  | PieceKind.Knight => knightValid rf cf rt ct
  | PieceKind.Bishop => bishopValid rf cf rt ct b
  | PieceKind.Queen => rookValid rf cf rt ct b || bishopValid rf cf rt ct b
  | PieceKind.King => kingValid rf cf rt ct sq

inductive GameStatus
  | UNFINISHED
  | WHITE_WON
  | BLACK_WON
deriving DecidableEq, Repr

structure GameState where
  board : Board
  game_state : GameStatus
  turn : Color

instance : DecidableEq GameState := fun a b =>
  decidable_of_iff (a.board = b.board ∧ a.game_state = b.game_state ∧ a.turn = b.turn)
    (by cases a; cases b; simp)

/-- change_turn. -/
def change_turn : Color → Color
  | Color.white => Color.black
  | Color.black => Color.white

/-- The game status recorded when the player to move wins. -/
def winOf : Color → GameStatus
  | Color.white => GameStatus.WHITE_WON
  | Color.black => GameStatus.BLACK_WON

/-- Membership of the board square (r, c) in the destination-centred
3x3 neighbourhood, clipped to the board: exactly the index rectangle
range(max(rt-1,0), min(rt+2,8)) x range(max(ct-1,0), min(ct+2,8))
iterated by the three neighbourhood loops of ChessVar. -/
def inBlast (rt ct : Int) (r c : Fin 8) : Prop :=
  max (rt - 1) 0 ≤ (r : Int) ∧ (r : Int) < min (rt + 2) 8 ∧
  max (ct - 1) 0 ≤ (c : Int) ∧ (c : Int) < min (ct + 2) 8

instance (rt ct : Int) (r c : Fin 8) : Decidable (inBlast rt ct r c) :=
  decidable_of_iff
    (max (rt - 1) 0 ≤ (r : Int) ∧ (r : Int) < min (rt + 2) 8 ∧
     max (ct - 1) 0 ≤ (c : Int) ∧ (c : Int) < min (ct + 2) 8) Iff.rfl

/-- is_own_king_exploded: some square of the clipped neighbourhood holds
a king of the side to move (symbol starting with K, colour == turn). -/
def is_own_king_exploded (b : Board) (turn : Color) (rt ct : Int) : Bool :=
  decide (∃ r c : Fin 8, inBlast rt ct r c ∧
    ∃ p : Piece, b r c = some p ∧ p.kind = PieceKind.King ∧ p.color = turn)

/-- is_opponent_king_exploded: some square of the clipped neighbourhood
holds a king whose colour differs from the side to move. -/
def is_opponent_king_exploded (b : Board) (turn : Color) (rt ct : Int) : Bool :=
  decide (∃ r c : Fin 8, inBlast rt ct r c ∧
    ∃ p : Piece, b r c = some p ∧ p.kind = PieceKind.King ∧ p.color ≠ turn)

/-- execute_explosion: each square of the clipped neighbourhood is
cleared unless it holds a pawn that is not on the destination square.
The loop iterations are independent (each cell is written at most once,
from its own old value), so the loop is its pointwise effect. -/
def execute_explosion (b : Board) (rt ct : Int) : Board := fun r c =>
  if inBlast rt ct r c then
    match b r c with
    | some p =>
        if p.kind = PieceKind.Pawn ∧ ¬((r : Int) = rt ∧ (c : Int) = ct) then some p
        else none
    | none => none
  else b r c

/-- ChessVar.make_move, over already-parsed coordinates (the algebraic
string adapter maps two-character square names injectively to
coordinate pairs, so the string equality test of the source is the
coordinate equality test here).  `none` models an IndexError escaping
from the square lookups that the source performs before its bounds
gate. -/
def make_move (s : GameState) (rf cf rt ct : Int) : Option (Bool × GameState) :=
  if s.game_state ≠ GameStatus.UNFINISHED then some (false, s)
  else if rf = rt ∧ cf = ct then some (false, s)
  else
    match pyCell s.board rf cf with
    | none => none
    | some square_from =>
      match pyCell s.board rt ct with
      | none => none
      | some square_to =>
        match square_from with
        | none => some (false, s)
        | some pf =>
          if pf.color ≠ s.turn then some (false, s)
          else if ¬(0 ≤ ct ∧ ct ≤ 7 ∧ 0 ≤ rt ∧ rt ≤ 7) then some (false, s)
          else if square_to.map Piece.color = some s.turn then some (false, s)
          else if isMoveValid pf rf cf rt ct square_to s.board then
            match square_to with
            | none =>
                some (true,
                  ⟨setCell (setCell s.board rf cf none) rt ct (some pf),
                   s.game_state, change_turn s.turn⟩)
            | some _ =>
                if is_own_king_exploded s.board s.turn rt ct then some (false, s)
                else if is_opponent_king_exploded (setCell s.board rf cf none) s.turn rt ct then
                  some (true,
                    ⟨execute_explosion (setCell s.board rf cf none) rt ct,
                     winOf s.turn, s.turn⟩)
                else
                  some (true,
                    ⟨execute_explosion (setCell s.board rf cf none) rt ct,
                     s.game_state, change_turn s.turn⟩)
          else some (false, s)

/-- Back rank at game start: Rook Knight Bishop Queen King Bishop Knight Rook. -/
def backRank (c : Color) (col : Fin 8) : Option Piece :=
  some ⟨match (col : Nat) with
        | 0 => PieceKind.Rook
        | 1 => PieceKind.Knight
        | 2 => PieceKind.Bishop
        | 3 => PieceKind.Queen
        | 4 => PieceKind.King
        | 5 => PieceKind.Bishop
        | 6 => PieceKind.Knight
        | _ => PieceKind.Rook, c⟩

/-- The initial board of ChessVar.__init__. -/
def initialBoard : Board := fun r c =>
  match (r : Nat) with
  | 0 => backRank Color.black c
  | 1 => some ⟨PieceKind.Pawn, Color.black⟩
  | 6 => some ⟨PieceKind.Pawn, Color.white⟩
  | 7 => backRank Color.white c
  | _ => none

/-- The initial game state of ChessVar.__init__. -/
def initialState : GameState :=
  ⟨initialBoard, GameStatus.UNFINISHED, Color.white⟩

/-- The states reachable from the initial position through
(possibly rejected) make_move calls that do not raise. -/
inductive Reachable : GameState → Prop
  | start : Reachable initialState
  | step (s s' : GameState) (rf cf rt ct : Int) (res : Bool) :
      Reachable s → make_move s rf cf rt ct = some (res, s') → Reachable s'

/-! ### Concrete positions used to instantiate the theorems -/

/-- A finished game (White has already won). -/
def wonState : GameState := ⟨initialBoard, GameStatus.WHITE_WON, Color.black⟩

/-- White rook a8, black knight b8, black pawn a7, White to move:
a8xb8 is an accepted capture whose explosion clears the rook and the
knight while the pawn at a7, inside the blast radius but off the
destination square, survives. -/
def wCapture : GameState :=
  ⟨fun r c =>
    if (r : Nat) = 0 ∧ (c : Nat) = 0 then some ⟨PieceKind.Rook, Color.white⟩
    else if (r : Nat) = 0 ∧ (c : Nat) = 1 then some ⟨PieceKind.Knight, Color.black⟩
    else if (r : Nat) = 1 ∧ (c : Nat) = 0 then some ⟨PieceKind.Pawn, Color.black⟩
    else none,
   GameStatus.UNFINISHED, Color.white⟩

/-- The state after a8xb8 from `wCapture`: only the black pawn at a7
remains. -/
def wCaptureAfter : GameState :=
  ⟨fun r c =>
    if (r : Nat) = 1 ∧ (c : Nat) = 0 then some ⟨PieceKind.Pawn, Color.black⟩
    else none,
   GameStatus.UNFINISHED, Color.black⟩

/-- White rook a8, black pawn b8, black king c8, white king e1,
White to move: a8xb8 explodes the black king and wins. -/
def wWin : GameState :=
  ⟨fun r c =>
    if (r : Nat) = 0 ∧ (c : Nat) = 0 then some ⟨PieceKind.Rook, Color.white⟩
    else if (r : Nat) = 0 ∧ (c : Nat) = 1 then some ⟨PieceKind.Pawn, Color.black⟩
    else if (r : Nat) = 0 ∧ (c : Nat) = 2 then some ⟨PieceKind.King, Color.black⟩
    else if (r : Nat) = 7 ∧ (c : Nat) = 4 then some ⟨PieceKind.King, Color.white⟩
    else none,
   GameStatus.UNFINISHED, Color.white⟩

/-- The state after a8xb8 from `wWin`: only the white king remains,
status WHITE WON, turn still White. -/
def wWinAfter : GameState :=
  ⟨fun r c =>
    if (r : Nat) = 7 ∧ (c : Nat) = 4 then some ⟨PieceKind.King, Color.white⟩
    else none,
   GameStatus.WHITE_WON, Color.white⟩

/-- White rook a8, black pawn c8, white king d8, White to move:
a8xc8 would blow up White's own king. -/
def wGuard : GameState :=
  ⟨fun r c =>
    if (r : Nat) = 0 ∧ (c : Nat) = 0 then some ⟨PieceKind.Rook, Color.white⟩
    else if (r : Nat) = 0 ∧ (c : Nat) = 2 then some ⟨PieceKind.Pawn, Color.black⟩
    else if (r : Nat) = 0 ∧ (c : Nat) = 3 then some ⟨PieceKind.King, Color.white⟩
    else none,
   GameStatus.UNFINISHED, Color.white⟩

/-- White king e1, black pawn e2, White to move: the king may not
capture the adjacent pawn. -/
def wKing : GameState :=
  ⟨fun r c =>
    if (r : Nat) = 7 ∧ (c : Nat) = 4 then some ⟨PieceKind.King, Color.white⟩
    else if (r : Nat) = 6 ∧ (c : Nat) = 4 then some ⟨PieceKind.Pawn, Color.black⟩
    else none,
   GameStatus.UNFINISHED, Color.white⟩

/-- An empty board. -/
def emptyBoard : Board := fun _ _ => none

/-- The state after the accepted pawn double step e2-e4 from the
initial position. -/
def stateAfterE2E4 : GameState :=
  ⟨fun r c =>
    if (r : Nat) = 6 ∧ (c : Nat) = 4 then none
    else if (r : Nat) = 4 ∧ (c : Nat) = 4 then some ⟨PieceKind.Pawn, Color.white⟩
    else initialBoard r c,
   GameStatus.UNFINISHED, Color.black⟩

/-- The state make_move computes for e2-e4 (shown equal to
`stateAfterE2E4` in the corresponding witness). -/
def mmE2E4 : GameState := ((make_move initialState 6 4 4 4).getD (false, initialState)).2

/-- The state make_move computes for a8xb8 from `wCapture`. -/
def mmCapture : GameState := ((make_move wCapture 0 0 0 1).getD (false, wCapture)).2

/-- The state make_move computes for a8xb8 from `wWin`. -/
def mmWin : GameState := ((make_move wWin 0 0 0 1).getD (false, wWin)).2

/-! ### Basic lemmas about indexing and board updates -/

lemma normIdx_of_bounds {i : Int} (h0 : 0 ≤ i) (h7 : i ≤ 7) :
    ∃ j : Fin 8, normIdx i = some j ∧ (j : Int) = i := by
  refine ⟨⟨i.toNat, by omega⟩, ?_, by show ((i.toNat : Nat) : Int) = i; omega⟩
  unfold normIdx
  rw [dif_pos ⟨h0, by omega⟩]

lemma pyCell_some_inv {b : Board} {r c : Int} {v : Option Piece}
    (h : pyCell b r c = some v) :
    ∃ nr nc : Fin 8, normIdx r = some nr ∧ normIdx c = some nc ∧ b nr nc = v := by
  unfold pyCell at h
  cases hr : normIdx r with
  | none => rw [hr] at h; simp at h
  | some nr =>
    cases hc : normIdx c with
    | none => rw [hr, hc] at h; simp at h
    | some nc =>
      rw [hr, hc] at h
      simp at h
      exact ⟨nr, nc, rfl, rfl, h⟩

lemma pyCell_of_normIdx {b : Board} {r c : Int} {nr nc : Fin 8}
    (hr : normIdx r = some nr) (hc : normIdx c = some nc) :
    pyCell b r c = some (b nr nc) := by
  unfold pyCell; rw [hr, hc]; rfl

lemma setCell_eval {b : Board} {r c : Int} {nr nc : Fin 8} (p : Option Piece)
    (hr : normIdx r = some nr) (hc : normIdx c = some nc) (x y : Fin 8) :
    setCell b r c p x y = if x = nr ∧ y = nc then p else b x y := by
  unfold setCell; rw [hr, hc]

lemma execute_explosion_eval (b : Board) (rt ct : Int) (x y : Fin 8) :
    execute_explosion b rt ct x y =
      if inBlast rt ct x y then
        match b x y with
        | some p =>
            if p.kind = PieceKind.Pawn ∧ ¬((x : Int) = rt ∧ (y : Int) = ct) then some p
            else none
        | none => none
      else b x y := rfl

lemma execute_explosion_not_blast {b : Board} {rt ct : Int} {x y : Fin 8}
    (h : ¬ inBlast rt ct x y) :
    execute_explosion b rt ct x y = b x y := by
  rw [execute_explosion_eval, if_neg h]

lemma is_own_king_exploded_false_iff {b : Board} {t : Color} {rt ct : Int} :
    is_own_king_exploded b t rt ct = false ↔
      ∀ r c : Fin 8, inBlast rt ct r c →
        ∀ p : Piece, b r c = some p → p.kind = PieceKind.King → p.color ≠ t := by
  unfold is_own_king_exploded
  rw [decide_eq_false_iff_not]
  push_neg
  constructor
  · intro h r c hb p hp hk; exact h r c hb p hp hk
  · intro h r c hb p hp hk; exact h r c hb p hp hk

lemma is_opponent_king_exploded_false_iff {b : Board} {t : Color} {rt ct : Int} :
    is_opponent_king_exploded b t rt ct = false ↔
      ∀ r c : Fin 8, inBlast rt ct r c →
        ∀ p : Piece, b r c = some p → p.kind = PieceKind.King → p.color = t := by
  unfold is_opponent_king_exploded
  rw [decide_eq_false_iff_not]
  push_neg
  constructor
  · intro h r c hb p hp hk; exact h r c hb p hp hk
  · intro h r c hb p hp hk; exact h r c hb p hp hk

lemma is_own_king_exploded_true_of {b : Board} {t : Color} {rt ct : Int}
    {r c : Fin 8} (hb : inBlast rt ct r c)
    (hp : b r c = some ⟨PieceKind.King, t⟩) :
    is_own_king_exploded b t rt ct = true := by
  unfold is_own_king_exploded
  rw [decide_eq_true_iff]
  exact ⟨r, c, hb, ⟨PieceKind.King, t⟩, hp, rfl, rfl⟩

lemma change_turn_ne (c : Color) : change_turn c ≠ c := by
  cases c <;> simp [change_turn]

lemma color_eq_change_turn_of_ne {a t : Color} (h : a ≠ t) : a = change_turn t := by
  cases a <;> cases t <;> simp_all [change_turn]

lemma winOf_ne_unfinished (c : Color) : winOf c ≠ GameStatus.UNFINISHED := by
  cases c <;> simp [winOf]

lemma normIdx_coe {i : Int} {j : Fin 8} (h : normIdx i = some j)
    (h0 : 0 ≤ i) (h7 : i ≤ 7) : (j : Int) = i := by
  obtain ⟨j', hj', hc⟩ := normIdx_of_bounds h0 h7
  rw [h] at hj'
  injection hj' with e
  rw [e]; exact hc

/-! ### Reduction equations for make_move, by shape of the two lookups -/

lemma make_move_raise_from {s : GameState} {rf cf rt ct : Int}
    (h1 : s.game_state = GameStatus.UNFINISHED) (h2 : ¬(rf = rt ∧ cf = ct))
    (hfc : pyCell s.board rf cf = none) :
    make_move s rf cf rt ct = none := by
  unfold make_move
  rw [if_neg (not_ne_iff.mpr h1), if_neg h2, hfc]

lemma make_move_raise_to {s : GameState} {rf cf rt ct : Int} {sf : Option Piece}
    (h1 : s.game_state = GameStatus.UNFINISHED) (h2 : ¬(rf = rt ∧ cf = ct))
    (hfc : pyCell s.board rf cf = some sf)
    (htc : pyCell s.board rt ct = none) :
    make_move s rf cf rt ct = none := by
  unfold make_move
  rw [if_neg (not_ne_iff.mpr h1), if_neg h2, hfc, htc]

lemma make_move_from_empty {s : GameState} {rf cf rt ct : Int} {st : Option Piece}
    (h1 : s.game_state = GameStatus.UNFINISHED) (h2 : ¬(rf = rt ∧ cf = ct))
    (hfc : pyCell s.board rf cf = some none)
    (htc : pyCell s.board rt ct = some st) :
    make_move s rf cf rt ct = some (false, s) := by
  unfold make_move
  rw [if_neg (not_ne_iff.mpr h1), if_neg h2, hfc, htc]

lemma make_move_eq_noncapture {s : GameState} {rf cf rt ct : Int} {pf : Piece}
    (h1 : s.game_state = GameStatus.UNFINISHED) (h2 : ¬(rf = rt ∧ cf = ct))
    (hfc : pyCell s.board rf cf = some (some pf))
    (htc : pyCell s.board rt ct = some none) :
    make_move s rf cf rt ct =
      (if pf.color ≠ s.turn then some (false, s)
       else if ¬(0 ≤ ct ∧ ct ≤ 7 ∧ 0 ≤ rt ∧ rt ≤ 7) then some (false, s)
       else if isMoveValid pf rf cf rt ct none s.board = true then
         some (true,
           ⟨setCell (setCell s.board rf cf none) rt ct (some pf),
            s.game_state, change_turn s.turn⟩)
       else some (false, s)) := by
  unfold make_move
  rw [if_neg (not_ne_iff.mpr h1), if_neg h2, hfc, htc]
  simp

lemma make_move_eq_capture {s : GameState} {rf cf rt ct : Int} {pf pt : Piece}
    (h1 : s.game_state = GameStatus.UNFINISHED) (h2 : ¬(rf = rt ∧ cf = ct))
    (hfc : pyCell s.board rf cf = some (some pf))
    (htc : pyCell s.board rt ct = some (some pt)) :
    make_move s rf cf rt ct =
      (if pf.color ≠ s.turn then some (false, s)
       else if ¬(0 ≤ ct ∧ ct ≤ 7 ∧ 0 ≤ rt ∧ rt ≤ 7) then some (false, s)
       else if pt.color = s.turn then some (false, s)
       else if isMoveValid pf rf cf rt ct (some pt) s.board = true then
         if is_own_king_exploded s.board s.turn rt ct = true then some (false, s)
         else if is_opponent_king_exploded (setCell s.board rf cf none) s.turn rt ct = true then
           some (true,
             ⟨execute_explosion (setCell s.board rf cf none) rt ct,
              winOf s.turn, s.turn⟩)
         else
           some (true,
             ⟨execute_explosion (setCell s.board rf cf none) rt ct,
              s.game_state, change_turn s.turn⟩)
       else some (false, s)) := by
  unfold make_move
  rw [if_neg (not_ne_iff.mpr h1), if_neg h2, hfc, htc]
  simp

/-- Every rejected call of make_move leaves the state unchanged. -/
lemma make_move_some_false {s s' : GameState} {rf cf rt ct : Int}
    (hm : make_move s rf cf rt ct = some (false, s')) : s' = s := by
  unfold make_move at hm
  repeat' split at hm
  all_goals simp_all

/-- Characterisation of the accepted moves of make_move. -/
lemma make_move_some_true {s s' : GameState} {rf cf rt ct : Int}
    (hm : make_move s rf cf rt ct = some (true, s')) :
    s.game_state = GameStatus.UNFINISHED ∧
    (0 ≤ rt ∧ rt ≤ 7 ∧ 0 ≤ ct ∧ ct ≤ 7) ∧
    ∃ (nrf ncf nrt nct : Fin 8) (pf : Piece),
      normIdx rf = some nrf ∧ normIdx cf = some ncf ∧
      normIdx rt = some nrt ∧ normIdx ct = some nct ∧
      (nrt : Int) = rt ∧ (nct : Int) = ct ∧
      s.board nrf ncf = some pf ∧ pf.color = s.turn ∧
      isMoveValid pf rf cf rt ct (s.board nrt nct) s.board = true ∧
      ((s.board nrt nct = none ∧
        s' = ⟨setCell (setCell s.board rf cf none) rt ct (some pf),
              s.game_state, change_turn s.turn⟩) ∨
       (∃ pt : Piece, s.board nrt nct = some pt ∧ pt.color ≠ s.turn ∧
        is_own_king_exploded s.board s.turn rt ct = false ∧
        ((is_opponent_king_exploded (setCell s.board rf cf none) s.turn rt ct = true ∧
          s' = ⟨execute_explosion (setCell s.board rf cf none) rt ct,
                winOf s.turn, s.turn⟩) ∨
         (is_opponent_king_exploded (setCell s.board rf cf none) s.turn rt ct = false ∧
          s' = ⟨execute_explosion (setCell s.board rf cf none) rt ct,
                s.game_state, change_turn s.turn⟩)))) := by
  have h1 : s.game_state = GameStatus.UNFINISHED := by
    by_contra h
    unfold make_move at hm; rw [if_pos h] at hm; simp at hm
  have h2 : ¬(rf = rt ∧ cf = ct) := by
    intro h
    unfold make_move at hm; rw [if_neg (not_ne_iff.mpr h1), if_pos h] at hm; simp at hm
  cases hfc : pyCell s.board rf cf with
  | none => rw [make_move_raise_from h1 h2 hfc] at hm; simp at hm
  | some square_from =>
    cases htc : pyCell s.board rt ct with
    | none => rw [make_move_raise_to h1 h2 hfc htc] at hm; simp at hm
    | some square_to =>
      cases square_from with
      | none => rw [make_move_from_empty h1 h2 hfc htc] at hm; simp at hm
      | some pf =>
        obtain ⟨nrf, ncf, hnrf, hncf, hbf⟩ := pyCell_some_inv hfc
        cases square_to with
        | none =>
          rw [make_move_eq_noncapture h1 h2 hfc htc] at hm
          by_cases g3 : pf.color ≠ s.turn
          · rw [if_pos g3] at hm; simp at hm
          rw [if_neg g3] at hm
          push_neg at g3
          by_cases g4 : ¬(0 ≤ ct ∧ ct ≤ 7 ∧ 0 ≤ rt ∧ rt ≤ 7)
          · rw [if_pos g4] at hm; simp at hm
          rw [if_neg g4] at hm
          push_neg at g4
          obtain ⟨hc0, hc7, hr0, hr7⟩ := g4
          obtain ⟨nrt, nct, hnrt, hnct, hbt⟩ := pyCell_some_inv htc
          by_cases g6 : isMoveValid pf rf cf rt ct none s.board = true
          · rw [if_pos g6] at hm
            simp only [Option.some.injEq, Prod.mk.injEq, true_and] at hm
            refine ⟨h1, ⟨hr0, hr7, hc0, hc7⟩, nrf, ncf, nrt, nct, pf,
              hnrf, hncf, hnrt, hnct, normIdx_coe hnrt hr0 hr7, normIdx_coe hnct hc0 hc7,
              hbf, g3, ?_, Or.inl ⟨hbt, hm.symm⟩⟩
            rw [hbt]; exact g6
          · rw [if_neg g6] at hm; simp at hm
        | some pt =>
          rw [make_move_eq_capture h1 h2 hfc htc] at hm
          by_cases g3 : pf.color ≠ s.turn
          · rw [if_pos g3] at hm; simp at hm
          rw [if_neg g3] at hm
          push_neg at g3
          by_cases g4 : ¬(0 ≤ ct ∧ ct ≤ 7 ∧ 0 ≤ rt ∧ rt ≤ 7)
          · rw [if_pos g4] at hm; simp at hm
          rw [if_neg g4] at hm
          push_neg at g4
          obtain ⟨hc0, hc7, hr0, hr7⟩ := g4
          obtain ⟨nrt, nct, hnrt, hnct, hbt⟩ := pyCell_some_inv htc
          by_cases g5 : pt.color = s.turn
          · rw [if_pos g5] at hm; simp at hm
          rw [if_neg g5] at hm
          by_cases g6 : isMoveValid pf rf cf rt ct (some pt) s.board = true
          · rw [if_pos g6] at hm
            by_cases g7 : is_own_king_exploded s.board s.turn rt ct = true
            · rw [if_pos g7] at hm; simp at hm
            rw [if_neg g7] at hm
            rw [Bool.not_eq_true] at g7
            by_cases g8 : is_opponent_king_exploded (setCell s.board rf cf none) s.turn rt ct = true
            · rw [if_pos g8] at hm
              simp only [Option.some.injEq, Prod.mk.injEq, true_and] at hm
              refine ⟨h1, ⟨hr0, hr7, hc0, hc7⟩, nrf, ncf, nrt, nct, pf,
                hnrf, hncf, hnrt, hnct, normIdx_coe hnrt hr0 hr7, normIdx_coe hnct hc0 hc7,
                hbf, g3, ?_, Or.inr ⟨pt, hbt, g5, g7, Or.inl ⟨g8, hm.symm⟩⟩⟩
              rw [hbt]; exact g6
            · rw [if_neg g8] at hm
              rw [Bool.not_eq_true] at g8
              simp only [Option.some.injEq, Prod.mk.injEq, true_and] at hm
              refine ⟨h1, ⟨hr0, hr7, hc0, hc7⟩, nrf, ncf, nrt, nct, pf,
                hnrf, hncf, hnrt, hnct, normIdx_coe hnrt hr0 hr7, normIdx_coe hnct hc0 hc7,
                hbf, g3, ?_, Or.inr ⟨pt, hbt, g5, g7, Or.inr ⟨g8, hm.symm⟩⟩⟩
              rw [hbt]; exact g6
          · rw [if_neg g6] at hm; simp at hm

lemma execute_explosion_some {b : Board} {rt ct : Int} {x y : Fin 8} {p : Piece}
    (hxy : inBlast rt ct x y) (hb : b x y = some p) :
    execute_explosion b rt ct x y =
      if p.kind = PieceKind.Pawn ∧ ¬((x : Int) = rt ∧ (y : Int) = ct) then some p
      else none := by
  unfold execute_explosion
  rw [if_pos hxy, hb]

lemma execute_explosion_none_cell {b : Board} {rt ct : Int} {x y : Fin 8}
    (hxy : inBlast rt ct x y) (hb : b x y = none) :
    execute_explosion b rt ct x y = none := by
  unfold execute_explosion
  rw [if_pos hxy, hb]

lemma is_opponent_king_exploded_true_iff {b : Board} {t : Color} {rt ct : Int} :
    is_opponent_king_exploded b t rt ct = true ↔
      ∃ x y : Fin 8, inBlast rt ct x y ∧
        b x y = some ⟨PieceKind.King, change_turn t⟩ := by
  unfold is_opponent_king_exploded
  rw [decide_eq_true_iff]
  constructor
  · rintro ⟨x, y, hxy, p, hp, hk, hc⟩
    refine ⟨x, y, hxy, ?_⟩
    rw [hp]
    cases p with
    | mk k col =>
      simp only at hk hc
      rw [hk, color_eq_change_turn_of_ne hc]
  · rintro ⟨x, y, hxy, hp⟩
    exact ⟨x, y, hxy, ⟨PieceKind.King, change_turn t⟩, hp, rfl, change_turn_ne t⟩

lemma kingValid_occupied (rf cf rt ct : Int) (pt : Piece) :
    kingValid rf cf rt ct (some pt) = false := by
  simp [kingValid]

lemma isMoveValid_king_occupied (kc : Color) (rf cf rt ct : Int) (pt : Piece) (b : Board) :
    isMoveValid ⟨PieceKind.King, kc⟩ rf cf rt ct (some pt) b = false := by
  simp [isMoveValid, kingValid]

/-! ### Claim theorems -/

/-- Claim C1: the spec requires every out-of-bounds destination to be
rejected with `false`, no error and no state change.  The source looks
up `board[row_to][column_to]` before its bounds gate, so a destination
whose row or column index is 8 or more (or below -8) raises IndexError
instead: from the initial position, the white pawn move a2 with
destination row index 8 (square "a0") raises, and so does destination
column index 8 (square "i2"); only destinations that happen to be
Python-indexable, such as row index -1 (square "a9"), reach the bounds
gate and are rejected with `false` and an unchanged state. -/
theorem C1_bounds_gate_raises :
    make_move initialState 6 0 8 0 = none ∧
    make_move initialState 6 0 6 8 = none ∧
    make_move initialState 6 0 (-1) 0 = some (false, initialState) := by
  refine ⟨rfl, rfl, by decide⟩

/-- Claim C6: once the status is not UNFINISHED the state is terminal:
every make_move call returns false and leaves board, turn and status
unchanged. -/
theorem C6_terminal_immutable (s : GameState) (rf cf rt ct : Int)
    (h : s.game_state ≠ GameStatus.UNFINISHED) :
    make_move s rf cf rt ct = some (false, s) := by
  unfold make_move
  rw [if_pos h]

theorem C6_terminal_immutable_witness :
    wonState.game_state ≠ GameStatus.UNFINISHED ∧
    make_move wonState 6 0 5 0 = some (false, wonState) :=
  ⟨by decide, C6_terminal_immutable wonState 6 0 5 0 (by decide)⟩

/-- Claim C5: an accepted non-capturing move (empty destination) empties
the origin square, puts the moved piece on the destination square,
changes no other square, flips the turn, and leaves the status
unchanged. -/
theorem C5_noncapture_frame (s s' : GameState) (rf cf rt ct : Int)
    (hm : make_move s rf cf rt ct = some (true, s'))
    (hemp : pyCell s.board rt ct = some none) :
    ∃ (nrf ncf nrt nct : Fin 8) (pf : Piece),
      normIdx rf = some nrf ∧ normIdx cf = some ncf ∧
      normIdx rt = some nrt ∧ normIdx ct = some nct ∧
      s.board nrf ncf = some pf ∧
      s'.board nrf ncf = none ∧
      s'.board nrt nct = some pf ∧
      (∀ x y : Fin 8, ¬(x = nrf ∧ y = ncf) → ¬(x = nrt ∧ y = nct) →
        s'.board x y = s.board x y) ∧
      s'.turn = change_turn s.turn ∧
      s'.game_state = s.game_state := by
  obtain ⟨h1, hb, nrf, ncf, nrt, nct, pf, hnrf, hncf, hnrt, hnct, hrt, hct,
    hbf, hcol, hval, hbr⟩ := make_move_some_true hm
  have hdest : s.board nrt nct = none := by
    have h := pyCell_of_normIdx (b := s.board) hnrt hnct
    rw [hemp] at h
    injection h with e
    exact e.symm
  rcases hbr with ⟨-, hs'⟩ | ⟨pt, hpt, -⟩
  · have hneq : ¬(nrf = nrt ∧ ncf = nct) := by
      rintro ⟨e1, e2⟩
      rw [e1, e2, hdest] at hbf
      exact Option.noConfusion hbf
    have hboard : s'.board = setCell (setCell s.board rf cf none) rt ct (some pf) := by
      rw [hs']
    refine ⟨nrf, ncf, nrt, nct, pf, hnrf, hncf, hnrt, hnct, hbf, ?_, ?_, ?_, ?_, ?_⟩
    · rw [hboard, setCell_eval _ hnrt hnct, if_neg hneq,
        setCell_eval _ hnrf hncf, if_pos ⟨rfl, rfl⟩]
    · rw [hboard, setCell_eval _ hnrt hnct, if_pos ⟨rfl, rfl⟩]
    · intro x y hx hy
      rw [hboard, setCell_eval _ hnrt hnct, if_neg hy, setCell_eval _ hnrf hncf, if_neg hx]
    · rw [hs']
    · rw [hs']
  · rw [hdest] at hpt
    exact Option.noConfusion hpt

theorem C5_noncapture_frame_witness :
    pyCell initialState.board 4 4 = some none ∧
    ∃ (nrf ncf nrt nct : Fin 8) (pf : Piece),
      normIdx 6 = some nrf ∧ normIdx 4 = some ncf ∧
      normIdx 4 = some nrt ∧ normIdx 4 = some nct ∧
      initialState.board nrf ncf = some pf ∧
      (stateAfterE2E4).board nrf ncf = none ∧
      (stateAfterE2E4).board nrt nct = some pf ∧
      (∀ x y : Fin 8, ¬(x = nrf ∧ y = ncf) → ¬(x = nrt ∧ y = nct) →
        (stateAfterE2E4).board x y = initialState.board x y) ∧
      (stateAfterE2E4).turn = change_turn initialState.turn ∧
      (stateAfterE2E4).game_state = initialState.game_state := by
  refine ⟨by decide, C5_noncapture_frame initialState stateAfterE2E4 6 4 4 4 ?_ (by decide)⟩
  have h1 : make_move initialState 6 4 4 4 = some (true, mmE2E4) := by decide
  have h2 : mmE2E4 = stateAfterE2E4 := by decide
  rw [h1, h2]

/-- Claim C2: after an accepted capturing move every square of the
destination-centred clipped 3x3 neighbourhood is empty except for pawns
on squares other than the destination; a pawn that occupies, on the
pre-explosion board (origin already cleared), a neighbourhood square
other than the destination survives in place; and the destination
square itself is always cleared. -/
theorem C2_explosion_clears_blast (s s' : GameState) (rf cf rt ct : Int) (pt : Piece)
    (hm : make_move s rf cf rt ct = some (true, s'))
    (hocc : pyCell s.board rt ct = some (some pt)) :
    (∀ x y : Fin 8, inBlast rt ct x y →
      s'.board x y = none ∨
      (∃ p : Piece, s'.board x y = some p ∧ p.kind = PieceKind.Pawn ∧
        ¬((x : Int) = rt ∧ (y : Int) = ct))) ∧
    (∀ x y : Fin 8, inBlast rt ct x y → ∀ p : Piece,
      setCell s.board rf cf none x y = some p → p.kind = PieceKind.Pawn →
      ¬((x : Int) = rt ∧ (y : Int) = ct) → s'.board x y = some p) ∧
    (∀ x y : Fin 8, (x : Int) = rt → (y : Int) = ct → s'.board x y = none) := by
  obtain ⟨h1, ⟨hr0, hr7, hc0, hc7⟩, nrf, ncf, nrt, nct, pf, hnrf, hncf, hnrt, hnct,
    hrt, hct, hbf, hcol, hval, hbr⟩ := make_move_some_true hm
  have hdest : s.board nrt nct = some pt := by
    have h := pyCell_of_normIdx (b := s.board) hnrt hnct
    rw [hocc] at h
    injection h with e
    exact e.symm
  rcases hbr with ⟨hempty, -⟩ | ⟨pt', hpt', hptc, hown, hbr2⟩
  · rw [hdest] at hempty
    exact Option.noConfusion hempty
  have hboard : s'.board = execute_explosion (setCell s.board rf cf none) rt ct := by
    rcases hbr2 with ⟨-, hs'⟩ | ⟨-, hs'⟩ <;> rw [hs']
  refine ⟨?_, ?_, ?_⟩
  · intro x y hxy
    rw [hboard]
    cases hB : setCell s.board rf cf none x y with
    | none => exact Or.inl (execute_explosion_none_cell hxy hB)
    | some p =>
      by_cases hp : p.kind = PieceKind.Pawn ∧ ¬((x : Int) = rt ∧ (y : Int) = ct)
      · exact Or.inr ⟨p, by rw [execute_explosion_some hxy hB, if_pos hp], hp.1, hp.2⟩
      · exact Or.inl (by rw [execute_explosion_some hxy hB, if_neg hp])
  · intro x y hxy p hB hpk hnd
    rw [hboard, execute_explosion_some hxy hB, if_pos ⟨hpk, hnd⟩]
  · intro x y hx hy
    have hxy : inBlast rt ct x y := by
      unfold inBlast
      rw [hx, hy]
      refine ⟨?_, ?_, ?_, ?_⟩ <;> simp only [max_le_iff, lt_min_iff] <;> omega
    rw [hboard]
    cases hB : setCell s.board rf cf none x y with
    | none => exact execute_explosion_none_cell hxy hB
    | some p =>
      rw [execute_explosion_some hxy hB, if_neg]
      rintro ⟨-, hne⟩
      exact hne ⟨hx, hy⟩

theorem C2_explosion_clears_blast_witness :
    pyCell wCapture.board 0 1 = some (some ⟨PieceKind.Knight, Color.black⟩) ∧
    wCaptureAfter.board 1 0 = some ⟨PieceKind.Pawn, Color.black⟩ ∧
    ((∀ x y : Fin 8, inBlast 0 1 x y →
       wCaptureAfter.board x y = none ∨
       (∃ p : Piece, wCaptureAfter.board x y = some p ∧ p.kind = PieceKind.Pawn ∧
         ¬((x : Int) = 0 ∧ (y : Int) = 1))) ∧
     (∀ x y : Fin 8, inBlast 0 1 x y → ∀ p : Piece,
       setCell wCapture.board 0 0 none x y = some p → p.kind = PieceKind.Pawn →
       ¬((x : Int) = 0 ∧ (y : Int) = 1) → wCaptureAfter.board x y = some p) ∧
     (∀ x y : Fin 8, (x : Int) = 0 → (y : Int) = 1 → wCaptureAfter.board x y = none)) := by
  refine ⟨by decide, by decide, C2_explosion_clears_blast wCapture wCaptureAfter 0 0 0 1
    ⟨PieceKind.Knight, Color.black⟩ ?_ (by decide)⟩
  have h1 : make_move wCapture 0 0 0 1 = some (true, mmCapture) := by decide
  have h2 : mmCapture = wCaptureAfter := by decide
  rw [h1, h2]

/-- Claim C3: for an accepted capturing move, if the opponent king is in
the destination-centred clipped neighbourhood of the pre-explosion board
(the board with the origin square already cleared) then the status
becomes the mover's win, the turn does not flip, and the opposing
king's square is emptied; otherwise the turn flips and the status stays
UNFINISHED. -/
theorem C3_win_detection (s s' : GameState) (rf cf rt ct : Int) (pt : Piece)
    (hm : make_move s rf cf rt ct = some (true, s'))
    (hocc : pyCell s.board rt ct = some (some pt)) :
    ((∃ x y : Fin 8, inBlast rt ct x y ∧
        setCell s.board rf cf none x y = some ⟨PieceKind.King, change_turn s.turn⟩) →
      s'.game_state = winOf s.turn ∧ s'.turn = s.turn ∧
      (∀ x y : Fin 8, inBlast rt ct x y →
        setCell s.board rf cf none x y = some ⟨PieceKind.King, change_turn s.turn⟩ →
        s'.board x y = none)) ∧
    ((¬∃ x y : Fin 8, inBlast rt ct x y ∧
        setCell s.board rf cf none x y = some ⟨PieceKind.King, change_turn s.turn⟩) →
      s'.turn = change_turn s.turn ∧ s'.game_state = GameStatus.UNFINISHED) := by
  obtain ⟨h1, ⟨hr0, hr7, hc0, hc7⟩, nrf, ncf, nrt, nct, pf, hnrf, hncf, hnrt, hnct,
    hrt, hct, hbf, hcol, hval, hbr⟩ := make_move_some_true hm
  have hdest : s.board nrt nct = some pt := by
    have h := pyCell_of_normIdx (b := s.board) hnrt hnct
    rw [hocc] at h
    injection h with e
    exact e.symm
  rcases hbr with ⟨hempty, -⟩ | ⟨pt', hpt', hptc, hown, hbr2⟩
  · rw [hdest] at hempty
    exact Option.noConfusion hempty
  rcases hbr2 with ⟨hopp, hs'⟩ | ⟨hopp, hs'⟩
  · have hex := is_opponent_king_exploded_true_iff.mp hopp
    refine ⟨fun _ => ⟨by rw [hs'], by rw [hs'], ?_⟩, fun hnex => absurd hex hnex⟩
    intro x y hxy hk
    rw [hs']
    show execute_explosion (setCell s.board rf cf none) rt ct x y = none
    rw [execute_explosion_some hxy hk, if_neg]
    rintro ⟨hpk, -⟩
    exact PieceKind.noConfusion hpk
  · have hnex : ¬∃ x y : Fin 8, inBlast rt ct x y ∧
        setCell s.board rf cf none x y = some ⟨PieceKind.King, change_turn s.turn⟩ := by
      intro hex
      rw [← is_opponent_king_exploded_true_iff] at hex
      rw [hopp] at hex
      exact Bool.noConfusion hex
    exact ⟨fun hex => absurd hex hnex, fun _ => ⟨by rw [hs'], by rw [hs', h1]⟩⟩

theorem C3_win_detection_witness :
    pyCell wWin.board 0 1 = some (some ⟨PieceKind.Pawn, Color.black⟩) ∧
    (((∃ x y : Fin 8, inBlast 0 1 x y ∧
        setCell wWin.board 0 0 none x y = some ⟨PieceKind.King, change_turn wWin.turn⟩) →
      wWinAfter.game_state = winOf wWin.turn ∧ wWinAfter.turn = wWin.turn ∧
      (∀ x y : Fin 8, inBlast 0 1 x y →
        setCell wWin.board 0 0 none x y = some ⟨PieceKind.King, change_turn wWin.turn⟩ →
        wWinAfter.board x y = none)) ∧
    ((¬∃ x y : Fin 8, inBlast 0 1 x y ∧
        setCell wWin.board 0 0 none x y = some ⟨PieceKind.King, change_turn wWin.turn⟩) →
      wWinAfter.turn = change_turn wWin.turn ∧
      wWinAfter.game_state = GameStatus.UNFINISHED)) := by
  refine ⟨by decide, C3_win_detection wWin wWinAfter 0 0 0 1
    ⟨PieceKind.Pawn, Color.black⟩ ?_ (by decide)⟩
  have h1 : make_move wWin 0 0 0 1 = some (true, mmWin) := by decide
  have h2 : mmWin = wWinAfter := by decide
  rw [h1, h2]

/-- Claim C4: a capturing move (occupied destination) with the mover's
own king inside the destination-centred clipped neighbourhood of the
pre-move board is rejected with zero mutation, whichever gate fires
first. -/
theorem C4_self_destruct_guard (s : GameState) (rf cf rt ct : Int)
    (sf : Option Piece) (pt : Piece)
    (hfrom : pyCell s.board rf cf = some sf)
    (hto : pyCell s.board rt ct = some (some pt))
    (hking : ∃ x y : Fin 8, inBlast rt ct x y ∧
      s.board x y = some ⟨PieceKind.King, s.turn⟩) :
    make_move s rf cf rt ct = some (false, s) := by
  by_cases h1 : s.game_state ≠ GameStatus.UNFINISHED
  · unfold make_move
    rw [if_pos h1]
  rw [not_ne_iff] at h1
  by_cases h2 : rf = rt ∧ cf = ct
  · unfold make_move
    rw [if_neg (not_ne_iff.mpr h1), if_pos h2]
  cases sf with
  | none => exact make_move_from_empty h1 h2 hfrom hto
  | some pf =>
    rw [make_move_eq_capture h1 h2 hfrom hto]
    obtain ⟨x, y, hxy, hk⟩ := hking
    have hown : is_own_king_exploded s.board s.turn rt ct = true :=
      is_own_king_exploded_true_of hxy hk
    by_cases g3 : pf.color ≠ s.turn
    · rw [if_pos g3]
    rw [if_neg g3]
    by_cases g4 : ¬(0 ≤ ct ∧ ct ≤ 7 ∧ 0 ≤ rt ∧ rt ≤ 7)
    · rw [if_pos g4]
    rw [if_neg g4]
    by_cases g5 : pt.color = s.turn
    · rw [if_pos g5]
    rw [if_neg g5]
    by_cases g6 : isMoveValid pf rf cf rt ct (some pt) s.board = true
    · rw [if_pos g6, if_pos hown]
    · rw [if_neg g6]

theorem C4_self_destruct_guard_witness :
    pyCell wGuard.board 0 0 = some (some ⟨PieceKind.Rook, Color.white⟩) ∧
    pyCell wGuard.board 0 2 = some (some ⟨PieceKind.Pawn, Color.black⟩) ∧
    (∃ x y : Fin 8, inBlast 0 2 x y ∧
      wGuard.board x y = some ⟨PieceKind.King, wGuard.turn⟩) ∧
    make_move wGuard 0 0 0 2 = some (false, wGuard) :=
  ⟨by decide, by decide, by decide,
   C4_self_destruct_guard wGuard 0 0 0 2 (some ⟨PieceKind.Rook, Color.white⟩)
     ⟨PieceKind.Pawn, Color.black⟩ (by decide) (by decide) (by decide)⟩

/-- Claim C8: King.is_move_valid accepts exactly the moves of Chebyshev
distance at most one onto an empty destination, and consequently every
king move onto an occupied square is rejected by make_move with no
mutation. -/
theorem C8_king_rules :
    (∀ (rf cf rt ct : Int) (sq : Option Piece),
      kingValid rf cf rt ct sq = true ↔
        sq = none ∧ max (rf - rt).natAbs (cf - ct).natAbs ≤ 1) ∧
    (∀ (s : GameState) (rf cf rt ct : Int) (kc : Color) (pt : Piece),
      pyCell s.board rf cf = some (some ⟨PieceKind.King, kc⟩) →
      pyCell s.board rt ct = some (some pt) →
      make_move s rf cf rt ct = some (false, s)) := by
  constructor
  · intro rf cf rt ct sq
    cases sq <;> simp [kingValid, Nat.max_le]
  · intro s rf cf rt ct kc pt hfrom hto
    by_cases h1 : s.game_state ≠ GameStatus.UNFINISHED
    · unfold make_move
      rw [if_pos h1]
    rw [not_ne_iff] at h1
    by_cases h2 : rf = rt ∧ cf = ct
    · unfold make_move
      rw [if_neg (not_ne_iff.mpr h1), if_pos h2]
    rw [make_move_eq_capture h1 h2 hfrom hto]
    by_cases g3 : Piece.color ⟨PieceKind.King, kc⟩ ≠ s.turn
    · rw [if_pos g3]
    rw [if_neg g3]
    by_cases g4 : ¬(0 ≤ ct ∧ ct ≤ 7 ∧ 0 ≤ rt ∧ rt ≤ 7)
    · rw [if_pos g4]
    rw [if_neg g4]
    by_cases g5 : pt.color = s.turn
    · rw [if_pos g5]
    rw [if_neg g5, if_neg]
    rw [isMoveValid_king_occupied]
    exact Bool.false_ne_true

theorem C8_king_rules_witness :
    (kingValid 7 4 6 4 none = true ↔
      (none : Option Piece) = none ∧ max ((7 : Int) - 6).natAbs ((4 : Int) - 4).natAbs ≤ 1) ∧
    make_move wKing 7 4 6 4 = some (false, wKing) :=
  ⟨C8_king_rules.1 7 4 6 4 none,
   C8_king_rules.2 wKing 7 4 6 4 Color.white ⟨PieceKind.Pawn, Color.black⟩
     (by decide) (by decide)⟩

/-- Claim C7: Pawn.is_move_valid accepts exactly the non-capturing
moves that stay in the file onto an empty square (single step forward,
or double step from the starting rank over an empty intervening
square), and the capturing moves of exactly one diagonal step forward
onto an occupied square; forward is decreasing row for White and
increasing row for Black. -/
theorem C7_pawn_rules (c : Color) (rf cf rt ct : Int) (sq : Option Piece) (b : Board) :
    pawnValid c rf cf rt ct sq b = true ↔
      ((sq = none ∧ cf = ct ∧
        ((c = Color.white ∧ (rf - rt = 1 ∨ (rf = 6 ∧ rf - rt = 2 ∧ cell b 5 cf = none))) ∨
         (c = Color.black ∧ (rt - rf = 1 ∨ (rf = 1 ∧ rt - rf = 2 ∧ cell b 2 cf = none))))) ∨
       (sq ≠ none ∧ (cf - ct).natAbs = 1 ∧
        ((c = Color.white ∧ rf - rt = 1) ∨ (c = Color.black ∧ rt - rf = 1)))) := by
  cases c <;> cases sq <;>
    simp [pawnValid, Option.isNone_iff_eq_none]
  · intro hc
    constructor
    · rintro (⟨⟨h6, h2⟩, hcell⟩ | h1)
      · exact Or.inr ⟨h6, h2, by rw [h6] at hcell; exact hcell⟩
      · exact Or.inl h1
    · rintro (h1 | ⟨h6, h2, hcell⟩)
      · exact Or.inr h1
      · exact Or.inl ⟨⟨h6, h2⟩, by rw [h6]; exact hcell⟩
  · intro hc
    constructor
    · rintro (⟨⟨h6, h2⟩, hcell⟩ | h1)
      · exact Or.inr ⟨h6, h2, by rw [h6] at hcell; exact hcell⟩
      · exact Or.inl h1
    · rintro (h1 | ⟨h6, h2, hcell⟩)
      · exact Or.inr h1
      · exact Or.inl ⟨⟨h6, h2⟩, by rw [h6]; exact hcell⟩

lemma bishopWalk_iff (b : Board) (sr sc : Int)
    (hsr : sr = 1 ∨ sr = -1) (hsc : sc = 1 ∨ sc = -1) :
    ∀ (m : Nat) (nr nc rt ct : Int) (fuel : Nat), m < fuel →
      rt = nr + sr * m → ct = nc + sc * m →
      (bishopWalk b rt ct sr sc nr nc fuel = true ↔
        ∀ k : Nat, k < m → cell b (nr + sr * k) (nc + sc * k) = none) := by
  intro m
  induction m with
  | zero =>
    intro nr nc rt ct fuel hf hr hc
    cases fuel with
    | zero => omega
    | succ f =>
      simp only [Nat.cast_zero, mul_zero, add_zero] at hr hc
      subst hr; subst hc
      simp [bishopWalk]
  | succ m ih =>
    intro nr nc rt ct fuel hf hr hc
    cases fuel with
    | zero => omega
    | succ f =>
      push_cast at hr hc
      have hnr : nr ≠ rt := by
        rcases hsr with h | h <;> subst h <;> omega
      have hnc : nc ≠ ct := by
        rcases hsc with h | h <;> subst h <;> omega
      have hstep : bishopWalk b rt ct sr sc nr nc (Nat.succ f) =
          if (cell b nr nc).isSome then false
          else bishopWalk b rt ct sr sc (nr + sr) (nc + sc) f := by
        show (if nr ≠ rt ∧ nc ≠ ct then
          if (cell b nr nc).isSome then false
          else bishopWalk b rt ct sr sc (nr + sr) (nc + sc) f else true) = _
        rw [if_pos ⟨hnr, hnc⟩]
      rw [hstep]
      by_cases hcell : (cell b nr nc).isSome
      · rw [if_pos hcell]
        simp only [Bool.false_eq_true, false_iff]
        intro h
        have h0 := h 0 (by omega)
        simp only [Nat.cast_zero, mul_zero, add_zero] at h0
        rw [h0] at hcell
        simp at hcell
      · rw [if_neg hcell]
        have h0 : cell b nr nc = none := by
          cases hcc : cell b nr nc with
          | none => rfl
          | some p => rw [hcc] at hcell; simp at hcell
        rw [ih (nr + sr) (nc + sc) rt ct f (by omega) (by linarith [hr])
          (by linarith [hc])]
        constructor
        · intro h k hk
          cases k with
          | zero =>
            simpa using h0
          | succ k' =>
            have hh := h k' (by omega)
            have e : ((k' + 1 : Nat) : Int) = (k' : Int) + 1 := by push_cast; ring
            rw [e]
            convert hh using 2 <;> ring
        · intro h k hk
          have hh := h (k + 1) (by omega)
          have e : ((k + 1 : Nat) : Int) = (k : Int) + 1 := by push_cast; ring
          rw [e] at hh
          convert hh using 2 <;> ring

/-- Claim C9: for origin distinct from destination (both board
squares), Bishop.is_move_valid returns true exactly when the absolute
row and column deltas agree and every square strictly between origin
and destination along the diagonal is empty; the loop that stops when
the row AND the column reach the target checks all of them. -/
theorem C9_bishop_rules (b : Board) (rf cf rt ct : Int)
    (hrf : 0 ≤ rf ∧ rf ≤ 7) (hcf : 0 ≤ cf ∧ cf ≤ 7)
    (hrt : 0 ≤ rt ∧ rt ≤ 7) (hct : 0 ≤ ct ∧ ct ≤ 7)
    (hne : ¬(rf = rt ∧ cf = ct)) :
    bishopValid rf cf rt ct b = true ↔
      ((rf - rt).natAbs = (cf - ct).natAbs ∧
       ∀ j : Nat, 0 < j → j < (rt - rf).natAbs →
         cell b (rf + (rt - rf).sign * j) (cf + (ct - cf).sign * j) = none) := by
  unfold bishopValid
  by_cases habs : (cf - ct).natAbs ≠ (rf - rt).natAbs
  · rw [if_pos habs]
    simp only [Bool.false_eq_true, false_iff]
    rintro ⟨h1, -⟩
    exact habs h1.symm
  · rw [if_neg habs]
    push_neg at habs
    have hrne : rf ≠ rt := by
      intro h
      exact hne ⟨h, by omega⟩
    have hcne : cf ≠ ct := by omega
    set sr : Int := if rf < rt then 1 else -1 with hsrdef
    set sc : Int := if cf < ct then 1 else -1 with hscdef
    have hsr : sr = 1 ∨ sr = -1 := by rw [hsrdef]; split <;> simp
    have hsc : sc = 1 ∨ sc = -1 := by rw [hscdef]; split <;> simp
    have hsgnr : (rt - rf).sign = sr := by
      rw [hsrdef]
      split
      · exact Int.sign_eq_one_of_pos (by omega)
      · exact Int.sign_eq_neg_one_of_neg (by omega)
    have hsgnc : (ct - cf).sign = sc := by
      rw [hscdef]
      split
      · exact Int.sign_eq_one_of_pos (by omega)
      · exact Int.sign_eq_neg_one_of_neg (by omega)
    have hd1 : 1 ≤ (rt - rf).natAbs := by omega
    have hrd : rt = (rf + sr) + sr * (((rt - rf).natAbs - 1 : Nat) : Int) := by
      have e : (((rt - rf).natAbs - 1 : Nat) : Int) = ((rt - rf).natAbs : Int) - 1 := by omega
      rw [e, hsrdef]
      split <;> omega
    have hcd : ct = (cf + sc) + sc * (((rt - rf).natAbs - 1 : Nat) : Int) := by
      have e : (((rt - rf).natAbs - 1 : Nat) : Int) = ((rt - rf).natAbs : Int) - 1 := by omega
      rw [e, hscdef]
      split <;> omega
    rw [bishopWalk_iff b sr sc hsr hsc ((rt - rf).natAbs - 1) (rf + sr) (cf + sc) rt ct 16
      (by omega) hrd hcd]
    rw [hsgnr, hsgnc]
    constructor
    · intro h
      refine ⟨habs.symm, ?_⟩
      intro j hj0 hjd
      have hh := h (j - 1) (by omega)
      have e : ((j - 1 : Nat) : Int) = (j : Int) - 1 := by omega
      rw [e] at hh
      convert hh using 2 <;> ring
    · rintro ⟨-, h⟩ k hk
      have hh := h (k + 1) (by omega) (by omega)
      have e : ((k + 1 : Nat) : Int) = (k : Int) + 1 := by push_cast; ring
      rw [e] at hh
      convert hh using 2 <;> ring

theorem C9_bishop_rules_witness :
    (¬((0 : Int) = 3 ∧ (0 : Int) = 3)) ∧
    (bishopValid 0 0 3 3 emptyBoard = true ↔
      (((0 : Int) - 3).natAbs = ((0 : Int) - 3).natAbs ∧
       ∀ j : Nat, 0 < j → j < ((3 : Int) - 0).natAbs →
         cell emptyBoard (0 + ((3 : Int) - 0).sign * (j : Int))
           (0 + ((3 : Int) - 0).sign * (j : Int)) = none)) :=
  ⟨by decide, C9_bishop_rules emptyBoard 0 0 3 3 (by decide) (by decide)
    (by decide) (by decide) (by decide)⟩

lemma isMoveValid_eq_kingValid {p : Piece} (h : p.kind = PieceKind.King)
    (rf cf rt ct : Int) (sq : Option Piece) (b : Board) :
    isMoveValid p rf cf rt ct sq b = kingValid rf cf rt ct sq := by
  unfold isMoveValid
  rw [h]

lemma step_preserves_kings {s s' : GameState} {rf cf rt ct : Int} {res : Bool}
    (hm : make_move s rf cf rt ct = some (res, s'))
    (ih : s.game_state = GameStatus.UNFINISHED →
      ∀ col : Color, ∃ r c : Fin 8, s.board r c = some ⟨PieceKind.King, col⟩) :
    s'.game_state = GameStatus.UNFINISHED →
      ∀ col : Color, ∃ r c : Fin 8, s'.board r c = some ⟨PieceKind.King, col⟩ := by
  cases res with
  | false =>
    rw [make_move_some_false hm]
    exact ih
  | true =>
    obtain ⟨h1, ⟨hr0, hr7, hc0, hc7⟩, nrf, ncf, nrt, nct, pf, hnrf, hncf, hnrt, hnct,
      hrt, hct, hbf, hcol, hval, hbr⟩ := make_move_some_true hm
    intro hs' col
    obtain ⟨r0, c0, hk⟩ := ih h1 col
    rcases hbr with ⟨hempty, hs⟩ | ⟨pt, hpt, hptc, hown, hbr2⟩
    · by_cases he : r0 = nrf ∧ c0 = ncf
      · obtain ⟨e1, e2⟩ := he
        rw [e1, e2] at hk
        rw [hbf] at hk
        injection hk with e3
        refine ⟨nrt, nct, ?_⟩
        rw [hs]
        show setCell (setCell s.board rf cf none) rt ct (some pf) nrt nct = _
        rw [setCell_eval _ hnrt hnct, if_pos ⟨rfl, rfl⟩, e3]
      · have hne2 : ¬(r0 = nrt ∧ c0 = nct) := by
          rintro ⟨e1, e2⟩
          rw [e1, e2, hempty] at hk
          exact Option.noConfusion hk
        refine ⟨r0, c0, ?_⟩
        rw [hs]
        show setCell (setCell s.board rf cf none) rt ct (some pf) r0 c0 = _
        rw [setCell_eval _ hnrt hnct, if_neg hne2, setCell_eval _ hnrf hncf, if_neg he]
        exact hk
    · have hpfk : pf.kind ≠ PieceKind.King := by
        intro hK
        rw [hpt, isMoveValid_eq_kingValid hK, kingValid_occupied] at hval
        exact Bool.noConfusion hval
      rcases hbr2 with ⟨hopp, hs⟩ | ⟨hopp, hs⟩
      · rw [hs] at hs'
        exact absurd hs' (winOf_ne_unfinished s.turn)
      · have hne1 : ¬(r0 = nrf ∧ c0 = ncf) := by
          rintro ⟨e1, e2⟩
          rw [e1, e2, hbf] at hk
          injection hk with e3
          exact hpfk (by rw [e3])
        have hb1 : setCell s.board rf cf none r0 c0 = some ⟨PieceKind.King, col⟩ := by
          rw [setCell_eval _ hnrf hncf, if_neg hne1]
          exact hk
        have hnb : ¬ inBlast rt ct r0 c0 := by
          intro hbl
          by_cases hcolt : col = s.turn
          · have ht := is_own_king_exploded_true_of hbl
              (by rw [hcolt] at hk; exact hk)
            rw [hown] at ht
            exact Bool.noConfusion ht
          · have hcol2 : col = change_turn s.turn := color_eq_change_turn_of_ne hcolt
            have ht : is_opponent_king_exploded (setCell s.board rf cf none) s.turn rt ct = true :=
              is_opponent_king_exploded_true_iff.mpr
                ⟨r0, c0, hbl, by rw [← hcol2]; exact hb1⟩
            rw [hopp] at ht
            exact Bool.noConfusion ht
        refine ⟨r0, c0, ?_⟩
        rw [hs]
        show execute_explosion (setCell s.board rf cf none) rt ct r0 c0 = _
        rw [execute_explosion_not_blast hnb]
        exact hb1

/-- Claim C10: in every state reachable from the initial position by
make_move calls, if the status is UNFINISHED then both kings are on the
board: a king is removed only by an explosion, which is either rejected
(own king) or immediately sets a win status (opponent king). -/
theorem C10_kings_present (s : GameState) (hreach : Reachable s)
    (hunf : s.game_state = GameStatus.UNFINISHED) :
    (∃ r c : Fin 8, s.board r c = some ⟨PieceKind.King, Color.white⟩) ∧
    (∃ r c : Fin 8, s.board r c = some ⟨PieceKind.King, Color.black⟩) := by
  suffices main : ∀ t : GameState, Reachable t → t.game_state = GameStatus.UNFINISHED →
      ∀ col : Color, ∃ r c : Fin 8, t.board r c = some ⟨PieceKind.King, col⟩ by
    exact ⟨main s hreach hunf Color.white, main s hreach hunf Color.black⟩
  intro t ht
  induction ht with
  | start =>
    intro _ col
    cases col with
    | white => exact ⟨7, 4, by decide⟩
    | black => exact ⟨0, 4, by decide⟩
  | step s1 s2 rf cf rt ct res hr hm ih =>
    exact step_preserves_kings hm ih

theorem C10_kings_present_witness :
    (∃ r c : Fin 8, initialState.board r c = some ⟨PieceKind.King, Color.white⟩) ∧
    (∃ r c : Fin 8, initialState.board r c = some ⟨PieceKind.King, Color.black⟩) :=
  C10_kings_present initialState Reachable.start rfl
